import Mathlib

/-!
Shallow embedding of the LangPack Studio translation-orchestration pipeline
(`src/utils/parallelProcessor.ts`, `src/utils/translationCache.ts`,
`src/utils/translationService.ts`, and the adaptive concurrency manager
`adaptiveConcurrency.ts`), together with theorems settling the spec claims.

Modelling conventions:
- JavaScript numbers appearing in ratios and rate limits are modelled as `ℚ`;
  counters and sizes as `ℕ`; timestamps as `ℤ` (passed explicitly where the
  code calls `Date.now()`).
- A JavaScript `Map` is modelled as an association list where `set` replaces
  an existing binding in place (preserving first-insertion order) and appends
  otherwise, exactly matching JS `Map` iteration semantics.
- Asynchronous code is modelled by explicit state passing (pure translator
  functions return `Except`), and the `PromisePool`'s event loop by a small
  step transition relation.
-/

set_option maxRecDepth 20000

namespace LangPack

/-! ### JS `Map` model -/

/-- JS `Map.get`: first (and only) binding for a key. -/
def jsMapGet {α : Type} (m : List (String × α)) (k : String) : Option α :=
  match m with
  | [] => none
  | (k', v) :: rest => if k' = k then some v else jsMapGet rest k

/-- JS `Map.set`: replace the binding in place if present, else append. -/
def jsMapSet {α : Type} (m : List (String × α)) (k : String) (v : α) :
    List (String × α) :=
  match m with
  | [] => [(k, v)]
  | (k', v') :: rest =>
    if k' = k then (k, v) :: rest else (k', v') :: jsMapSet rest k v

theorem jsMapGet_set_self {α : Type} (m : List (String × α)) (k : String) (v : α) :
    jsMapGet (jsMapSet m k v) k = some v := by
  induction m with
  | nil => simp [jsMapSet, jsMapGet]
  | cons hd tl ih =>
    by_cases h : hd.1 = k
    · simp [jsMapSet, jsMapGet, h]
    · simp [jsMapSet, jsMapGet, h, ih]

theorem jsMapGet_set_other {α : Type} (m : List (String × α)) (k k' : String) (v : α)
    (h : k ≠ k') : jsMapGet (jsMapSet m k v) k' = jsMapGet m k' := by
  induction m with
  | nil => simp [jsMapSet, jsMapGet, h]
  | cons hd tl ih =>
    by_cases hh : hd.1 = k
    · simp [jsMapSet, jsMapGet, hh, h]
    · simp only [jsMapSet, if_neg hh]
      by_cases hk : hd.1 = k'
      · simp [jsMapGet, hk]
      · simp [jsMapGet, hk, ih]

theorem jsMapSet_length_of_get_some {α : Type} (m : List (String × α)) (k : String)
    (v : α) (h : (jsMapGet m k).isSome) :
    (jsMapSet m k v).length = m.length := by
  induction m with
  | nil => simp [jsMapGet] at h
  | cons hd tl ih =>
    by_cases hh : hd.1 = k
    · simp [jsMapSet, hh]
    · simp only [jsMapGet, if_neg hh] at h
      simp [jsMapSet, if_neg hh, ih h]

theorem jsMapSet_length_le {α : Type} (m : List (String × α)) (k : String) (v : α) :
    (jsMapSet m k v).length ≤ m.length + 1 := by
  induction m with
  | nil => simp [jsMapSet]
  | cons hd tl ih =>
    by_cases hh : hd.1 = k
    · simp [jsMapSet, hh]
    · simp only [jsMapSet, if_neg hh, List.length_cons]
      omega

theorem jsMapSet_keys_subset {α : Type} (m : List (String × α)) (k : String) (v : α) :
    ∀ e ∈ jsMapSet m k v, e.1 = k ∨ e.1 ∈ m.map Prod.fst := by
  induction m with
  | nil => simp [jsMapSet]
  | cons hd tl ih =>
    intro e he
    by_cases hh : hd.1 = k
    · simp only [jsMapSet, if_pos hh, List.mem_cons] at he
      rcases he with he | he
      · left; rw [he]
      · right; exact List.mem_map.mpr ⟨e, List.mem_cons_of_mem hd he, rfl⟩
    · simp only [jsMapSet, if_neg hh, List.mem_cons] at he
      rcases he with he | he
      · right; rw [he]; simp
      · rcases ih e he with h1 | h1
        · left; exact h1
        · right; simp only [List.map_cons, List.mem_cons]; exact Or.inr h1

/-! ### Adaptive Concurrency Manager (`adaptiveConcurrency.ts`)

The `lastUpdated: new Date()` field of `NetworkCondition` is a wall-clock
timestamp irrelevant to the classification and is not part of the embedding.
-/

inductive NetworkStatus
  | excellent
  | good
  | normal
  | poor
  | critical
deriving DecidableEq, Repr

structure PerformanceMetrics where
  responseTime : ℚ
  errorRate : ℚ
  throughput : ℚ
  successRate : ℚ
  queueDepth : ℚ
deriving DecidableEq, Repr

structure NetworkCondition where
  status : NetworkStatus
  averageResponseTime : ℚ
  errorRate : ℚ
  throughput : ℚ
deriving DecidableEq, Repr

/-- `array.reduce((sum, x) => sum + f(x), 0)`. -/
def ratSum (l : List ℚ) : ℚ := l.foldl (· + ·) 0

/-- `this.metrics.slice(-10)`: the last (up to) ten samples. -/
def lastTen (ms : List PerformanceMetrics) : List PerformanceMetrics :=
  ms.drop (ms.length - 10)

def avgResponseTime (ms : List PerformanceMetrics) : ℚ :=
  ratSum (ms.map (·.responseTime)) / ms.length

def avgErrorRate (ms : List PerformanceMetrics) : ℚ :=
  ratSum (ms.map (·.errorRate)) / ms.length

def avgThroughput (ms : List PerformanceMetrics) : ℚ :=
  ratSum (ms.map (·.throughput)) / ms.length

/-- The status-decision cascade of `evaluateNetworkCondition`. -/
def statusOf (avgErrorRate avgResponseTime : ℚ) : NetworkStatus :=
  if avgErrorRate > 3/10 then .critical
  else if avgErrorRate > 15/100 ∨ avgResponseTime > 3000 then .poor
  else if avgErrorRate > 5/100 ∨ avgResponseTime > 1500 then .normal
  else if avgResponseTime < 500 ∧ avgErrorRate < 2/100 then .excellent
  else .good

/-- `AdaptiveConcurrencyManager.evaluateNetworkCondition`. -/
def evaluateNetworkCondition (metrics : List PerformanceMetrics) : NetworkCondition :=
  if metrics.length = 0 then
    { status := .normal, averageResponseTime := 500, errorRate := 0, throughput := 0 }
  else
    let recent := lastTen metrics
    { status := statusOf (avgErrorRate recent) (avgResponseTime recent)
      averageResponseTime := avgResponseTime recent
      errorRate := avgErrorRate recent
      throughput := avgThroughput recent }

inductive Service
  | google
  | gemini
  | libretranslate
deriving DecidableEq, Repr

structure ConcurrencyConfig where
  maxConcurrent : ℕ
  rateLimitMs : ℚ
  backoffFactor : ℚ
  healthCheckInterval : ℚ
deriving DecidableEq, Repr

structure ServiceLimits where
  minConcurrent : ℕ
  maxConcurrent : ℕ
  minRateLimit : ℚ
  maxRateLimit : ℚ
deriving DecidableEq, Repr

structure ServiceProfile where
  baseConfig : ConcurrencyConfig
  limits : ServiceLimits
deriving DecidableEq, Repr

/-- `AdaptiveConcurrencyManager.SERVICE_PROFILES`. -/
def SERVICE_PROFILES : Service → ServiceProfile
  | .google =>
    { baseConfig := { maxConcurrent := 3, rateLimitMs := 200, backoffFactor := 3/2,
                      healthCheckInterval := 10000 }
      limits := { minConcurrent := 1, maxConcurrent := 8, minRateLimit := 100,
                  maxRateLimit := 2000 } }
  | .gemini =>
    { baseConfig := { maxConcurrent := 5, rateLimitMs := 100, backoffFactor := 13/10,
                      healthCheckInterval := 8000 }
      limits := { minConcurrent := 1, maxConcurrent := 10, minRateLimit := 50,
                  maxRateLimit := 1000 } }
  | .libretranslate =>
    { baseConfig := { maxConcurrent := 2, rateLimitMs := 500, backoffFactor := 2,
                      healthCheckInterval := 15000 }
      limits := { minConcurrent := 1, maxConcurrent := 5, minRateLimit := 200,
                  maxRateLimit := 3000 } }

/-- `Partial<ConcurrencyConfig>` as passed to the constructor. -/
structure PartialConcurrencyConfig where
  maxConcurrent : Option ℕ := none
  rateLimitMs : Option ℚ := none
  backoffFactor : Option ℚ := none
  healthCheckInterval : Option ℚ := none

/-- The constructor's `{...profile.baseConfig, ...initialConfig}` spread merge. -/
def initConfig (service : Service) (initial : PartialConcurrencyConfig) :
    ConcurrencyConfig :=
  let base := (SERVICE_PROFILES service).baseConfig
  { maxConcurrent := initial.maxConcurrent.getD base.maxConcurrent
    rateLimitMs := initial.rateLimitMs.getD base.rateLimitMs
    backoffFactor := initial.backoffFactor.getD base.backoffFactor
    healthCheckInterval := initial.healthCheckInterval.getD base.healthCheckInterval }

/-- `AdaptiveConcurrencyManager.calculateOptimalConfig`. -/
def calculateOptimalConfig (service : Service) (base : ConcurrencyConfig)
    (condition : NetworkCondition) : ConcurrencyConfig :=
  let profile := SERVICE_PROFILES service
  match condition.status with
  | .excellent =>
    { base with
      maxConcurrent := min (base.maxConcurrent + 1) profile.limits.maxConcurrent
      rateLimitMs := max (base.rateLimitMs * (9/10)) profile.limits.minRateLimit }
  | .good =>
    if condition.averageResponseTime < 300 then
      { base with
        maxConcurrent := min (base.maxConcurrent + 1) profile.limits.maxConcurrent }
    else base
  | .normal => base
  | .poor =>
    { base with
      maxConcurrent := max (base.maxConcurrent - 1) profile.limits.minConcurrent
      rateLimitMs := min (base.rateLimitMs * (13/10)) profile.limits.maxRateLimit }
  | .critical =>
    { base with
      maxConcurrent := profile.limits.minConcurrent
      rateLimitMs := profile.limits.maxRateLimit }

/-- `shouldAdjustConfig`. -/
def shouldAdjustConfig (current newConfig : ConcurrencyConfig) : Prop :=
  newConfig.maxConcurrent ≠ current.maxConcurrent ∨
    |newConfig.rateLimitMs - current.rateLimitMs| > 50

/-- `handleDegradedPerformance` in the `critical` case ("emergency mode"). -/
def emergencyConfig (service : Service) : ConcurrencyConfig :=
  let profile := SERVICE_PROFILES service
  { profile.baseConfig with
    maxConcurrent := 1
    rateLimitMs := profile.limits.maxRateLimit }

def maxMetricsHistory : ℕ := 50

/-- The history append and `slice(-50)` cap performed by `recordMetrics`. -/
def pushMetrics (metrics : List PerformanceMetrics) (m : PerformanceMetrics) :
    List PerformanceMetrics :=
  let appended := metrics ++ [m]
  if appended.length > maxMetricsHistory then
    appended.drop (appended.length - maxMetricsHistory)
  else appended

structure ManagerState where
  config : ConcurrencyConfig
  metrics : List PerformanceMetrics

/-- The manager immediately after construction. -/
def ManagerState.init (service : Service) (initial : PartialConcurrencyConfig) :
    ManagerState :=
  { config := initConfig service initial, metrics := [] }

/-- `reset()`: restore the base config and clear the history. -/
def resetState (service : Service) : ManagerState :=
  { config := (SERVICE_PROFILES service).baseConfig, metrics := [] }

/-- One observable transition of the manager: a `recordMetrics` call that does
not pass the cooldown/dead-band gate, one that does and adjusts, the periodic
health check firing in a critical condition, or a `reset()`. -/
inductive ManagerStep (service : Service) : ManagerState → ManagerState → Prop
  | record (s : ManagerState) (m : PerformanceMetrics) :
      ManagerStep service s { config := s.config, metrics := pushMetrics s.metrics m }
  | recordAdjust (s : ManagerState) (m : PerformanceMetrics)
      (h : shouldAdjustConfig s.config (calculateOptimalConfig service s.config
        (evaluateNetworkCondition (pushMetrics s.metrics m)))) :
      ManagerStep service s
        { config := calculateOptimalConfig service s.config
            (evaluateNetworkCondition (pushMetrics s.metrics m))
          metrics := pushMetrics s.metrics m }
  | healthCheck (s : ManagerState)
      (h : (evaluateNetworkCondition s.metrics).status = .critical) :
      ManagerStep service s { config := emergencyConfig service, metrics := s.metrics }
  | reset (s : ManagerState) : ManagerStep service s (resetState service)

/-- The profile-bounds invariant: concurrency and rate interval within limits. -/
def InBounds (service : Service) (c : ConcurrencyConfig) : Prop :=
  let l := (SERVICE_PROFILES service).limits
  l.minConcurrent ≤ c.maxConcurrent ∧ c.maxConcurrent ≤ l.maxConcurrent ∧
    l.minRateLimit ≤ c.rateLimitMs ∧ c.rateLimitMs ≤ l.maxRateLimit

instance (service : Service) (c : ConcurrencyConfig) : Decidable (InBounds service c) := by
  unfold InBounds; infer_instance

theorem profile_limits_consistent (s : Service) :
    (SERVICE_PROFILES s).limits.minConcurrent ≤ (SERVICE_PROFILES s).limits.maxConcurrent ∧
    (SERVICE_PROFILES s).limits.minRateLimit ≤ (SERVICE_PROFILES s).limits.maxRateLimit ∧
    0 ≤ (SERVICE_PROFILES s).limits.minRateLimit ∧
    (SERVICE_PROFILES s).limits.minConcurrent = 1 := by
  cases s <;> refine ⟨by decide, by decide, by decide, rfl⟩

theorem base_inBounds (s : Service) : InBounds s (SERVICE_PROFILES s).baseConfig := by
  cases s <;> decide

theorem emergency_inBounds (s : Service) : InBounds s (emergencyConfig s) := by
  cases s <;> decide

theorem calculateOptimalConfig_inBounds (s : Service) (cfg : ConcurrencyConfig)
    (cond : NetworkCondition) (h : InBounds s cfg) :
    InBounds s (calculateOptimalConfig s cfg cond) := by
  obtain ⟨h1, h2, h3, h4⟩ := h
  obtain ⟨p1, p2, p3, _⟩ := profile_limits_consistent s
  have hr0 : (0 : ℚ) ≤ cfg.rateLimitMs := le_trans p3 h3
  cases hst : cond.status with
  | excellent =>
    refine ⟨?_, ?_, ?_, ?_⟩ <;>
      simp only [calculateOptimalConfig, hst]
    · exact le_min (le_trans h1 (Nat.le_succ _)) p1
    · exact min_le_right _ _
    · exact le_max_right _ _
    · exact max_le (le_trans (by linarith) h4) p2
  | good =>
    by_cases hresp : cond.averageResponseTime < 300
    · refine ⟨?_, ?_, ?_, ?_⟩ <;>
        simp only [calculateOptimalConfig, hst, if_pos hresp]
      · exact le_min (le_trans h1 (Nat.le_succ _)) p1
      · exact min_le_right _ _
      · exact h3
      · exact h4
    · refine ⟨?_, ?_, ?_, ?_⟩ <;>
        simp only [calculateOptimalConfig, hst, if_neg hresp]
      · exact h1
      · exact h2
      · exact h3
      · exact h4
  | normal =>
    exact ⟨by simpa [calculateOptimalConfig, hst] using h1,
      by simpa [calculateOptimalConfig, hst] using h2,
      by simpa [calculateOptimalConfig, hst] using h3,
      by simpa [calculateOptimalConfig, hst] using h4⟩
  | poor =>
    refine ⟨?_, ?_, ?_, ?_⟩ <;>
      simp only [calculateOptimalConfig, hst]
    · exact le_max_right _ _
    · exact max_le (le_trans (Nat.sub_le _ _) h2) p1
    · exact le_min (le_trans h3 (by linarith)) p2
    · exact min_le_right _ _
  | critical =>
    refine ⟨?_, ?_, ?_, ?_⟩ <;>
      simp only [calculateOptimalConfig, hst]
    · exact le_refl _
    · exact p1
    · exact p2
    · exact le_refl _

theorem managerStep_inBounds (s : Service) (st st' : ManagerState)
    (h : InBounds s st.config) (hstep : ManagerStep s st st') :
    InBounds s st'.config := by
  cases hstep with
  | record m => exact h
  | recordAdjust m hadj => exact calculateOptimalConfig_inBounds _ _ _ h
  | healthCheck hc => exact emergency_inBounds _
  | reset => exact base_inBounds _

/-- The classification table exactly as the claim states it, in the claim's
order: critical when error >30%; poor when error in (15%,30%] or response
>3000ms; excellent when response <500ms and error <2%; good when not
poor/critical and (response <1500ms OR error ≤5%); normal otherwise. -/
def claimStatus (avgResponseTime avgErrorRate : ℚ) : NetworkStatus :=
  if avgErrorRate > 3/10 then .critical
  else if (15/100 < avgErrorRate ∧ avgErrorRate ≤ 3/10) ∨ avgResponseTime > 3000 then .poor
  else if avgResponseTime < 500 ∧ avgErrorRate < 2/100 then .excellent
  else if avgResponseTime < 1500 ∨ avgErrorRate ≤ 5/100 then .good
  else .normal

/-- The amended classification table: as the claim, except that `good` requires
error ≤5% AND response ≤1500ms (and not excellent); `normal` otherwise. -/
def amendedStatus (avgResponseTime avgErrorRate : ℚ) : NetworkStatus :=
  if avgErrorRate > 3/10 then .critical
  else if (15/100 < avgErrorRate ∧ avgErrorRate ≤ 3/10) ∨ avgResponseTime > 3000 then .poor
  else if avgResponseTime < 500 ∧ avgErrorRate < 2/100 then .excellent
  else if avgErrorRate ≤ 5/100 ∧ avgResponseTime ≤ 1500 then .good
  else .normal

theorem statusOf_eq_amendedStatus (r e : ℚ) : statusOf e r = amendedStatus r e := by
  unfold statusOf amendedStatus
  by_cases h1 : e > 3/10
  · simp only [if_pos h1]
  · have he3 : e ≤ 3/10 := not_lt.mp h1
    by_cases h2 : e > 15/100 ∨ r > 3000
    · have h2' : (15/100 < e ∧ e ≤ 3/10) ∨ r > 3000 :=
        h2.elim (fun h => Or.inl ⟨h, he3⟩) Or.inr
      simp only [if_neg h1, if_pos h2, if_pos h2']
    · have h2' : ¬((15/100 < e ∧ e ≤ 3/10) ∨ r > 3000) := fun hc =>
        hc.elim (fun h => h2 (Or.inl h.1)) (fun h => h2 (Or.inr h))
      by_cases h4 : r < 500 ∧ e < 2/100
      · have h3 : ¬(e > 5/100 ∨ r > 1500) := by
          push_neg
          exact ⟨by linarith [h4.2], by linarith [h4.1]⟩
        simp only [if_neg h1, if_neg h2, if_neg h2', if_neg h3, if_pos h4]
      · by_cases h3 : e > 5/100 ∨ r > 1500
        · have hd4 : ¬(e ≤ 5/100 ∧ r ≤ 1500) := fun hc =>
            h3.elim (fun h => absurd hc.1 (not_le.mpr h))
              (fun h => absurd hc.2 (not_le.mpr h))
          simp only [if_neg h1, if_neg h2, if_neg h2', if_pos h3, if_neg h4, if_neg hd4]
        · have h3' : e ≤ 5/100 ∧ r ≤ 1500 := by push_neg at h3; exact h3
          simp only [if_neg h1, if_neg h2, if_neg h2', if_neg h3, if_neg h4, if_pos h3']

/-- C4 counterexample: a single fast sample (200ms) with 10% error rate is
classified `normal` by `evaluateNetworkCondition` (its average error rate 10%
exceeds the 5% gate), while the claim's table classifies these averages as
`good` (because the response average is below 1500ms). -/
theorem evaluateNetworkCondition_claim_counterexample :
    (evaluateNetworkCondition [⟨200, 1/10, 0, 9/10, 0⟩]).averageResponseTime = 200 ∧
    (evaluateNetworkCondition [⟨200, 1/10, 0, 9/10, 0⟩]).errorRate = 1/10 ∧
    (evaluateNetworkCondition [⟨200, 1/10, 0, 9/10, 0⟩]).status = .normal ∧
    claimStatus 200 (1/10) = .good ∧ NetworkStatus.normal ≠ .good := by
  norm_num [evaluateNetworkCondition, statusOf, claimStatus, lastTen,
    avgResponseTime, avgErrorRate, avgThroughput, ratSum]
  decide

/-- C4 (amended): for a nonempty history, `evaluateNetworkCondition` averages
the last 10 samples and classifies them by the amended table (`good` requires
error ≤5% and response ≤1500ms; `normal` otherwise). -/
theorem evaluateNetworkCondition_amended (ms : List PerformanceMetrics)
    (h : ms ≠ []) :
    evaluateNetworkCondition ms =
      { status := amendedStatus (avgResponseTime (lastTen ms)) (avgErrorRate (lastTen ms))
        averageResponseTime := avgResponseTime (lastTen ms)
        errorRate := avgErrorRate (lastTen ms)
        throughput := avgThroughput (lastTen ms) } := by
  have hl : ¬ ms.length = 0 := by
    simpa [List.length_eq_zero] using h
  simp only [evaluateNetworkCondition, if_neg hl, statusOf_eq_amendedStatus]

/-- Witness for the amended C4 theorem at a concrete one-sample history. -/
theorem evaluateNetworkCondition_amended_witness :
    ([(⟨200, 1/10, 0, 9/10, 0⟩ : PerformanceMetrics)] ≠ []) ∧
    evaluateNetworkCondition [⟨200, 1/10, 0, 9/10, 0⟩] =
      { status := amendedStatus
          (avgResponseTime (lastTen [⟨200, 1/10, 0, 9/10, 0⟩]))
          (avgErrorRate (lastTen [⟨200, 1/10, 0, 9/10, 0⟩]))
        averageResponseTime := avgResponseTime (lastTen [⟨200, 1/10, 0, 9/10, 0⟩])
        errorRate := avgErrorRate (lastTen [⟨200, 1/10, 0, 9/10, 0⟩])
        throughput := avgThroughput (lastTen [⟨200, 1/10, 0, 9/10, 0⟩]) } :=
  ⟨by decide, evaluateNetworkCondition_amended [⟨200, 1/10, 0, 9/10, 0⟩] (by decide)⟩

/-- C5 counterexample: constructing the google manager with a caller-supplied
initial `maxConcurrent := 100` leaves the configuration at 100, above the
google profile ceiling of 8 — the bounds are violated immediately after
construction, with no `recordMetrics`, adjustment or health check at all. -/
theorem construction_bounds_counterexample :
    (ManagerState.init .google { maxConcurrent := some 100 }).config.maxConcurrent = 100 ∧
    ¬ InBounds .google (ManagerState.init .google { maxConcurrent := some 100 }).config := by
  refine ⟨by decide, by decide⟩

/-- C5 (amended): provided the merged construction-time configuration lies
within the service profile's bounds, every configuration reachable through
`recordMetrics` calls, adjustments, health checks and resets stays within
those bounds. -/
theorem adaptive_config_inBounds (s : Service) (st st' : ManagerState)
    (h : InBounds s st.config)
    (hr : Relation.ReflTransGen (ManagerStep s) st st') :
    InBounds s st'.config := by
  induction hr with
  | refl => exact h
  | tail hab hbc ih => exact managerStep_inBounds s _ _ ih hbc

/-- Witness: the default google construction is in bounds, and stays so. -/
theorem adaptive_config_inBounds_witness :
    InBounds .google (ManagerState.init .google {}).config :=
  adaptive_config_inBounds .google (ManagerState.init .google {})
    (ManagerState.init .google {}) (by decide) Relation.ReflTransGen.refl

/-- C10: with an empty metrics history (before any `recordMetrics`, and
`reset()` clears the history), `evaluateNetworkCondition` returns the default
classification: `normal` with averageResponseTime 500, errorRate 0,
throughput 0. -/
theorem empty_history_default_condition :
    evaluateNetworkCondition [] =
      { status := .normal, averageResponseTime := 500, errorRate := 0,
        throughput := 0 } ∧
    ∀ s : Service, (resetState s).metrics = [] :=
  ⟨rfl, fun _ => rfl⟩

/-! ### Translation Cache (`translationCache.ts`)

`loadFromStorage`, the debounced `saveToStorage`, and the cleanup timers touch
`localStorage` and wall-clock timers; the in-memory table and its mutating
operations (`get`, `set`, `evictLeastUsed`, `clear`) are embedded with
`Date.now()` passed explicitly. -/

structure CacheEntry where
  originalText : String
  translatedText : String
  fromLang : String
  toLang : String
  timestamp : ℤ
  hitCount : ℕ
  service : Option String
deriving DecidableEq, Repr

def MAX_MEMORY_ENTRIES : ℕ := 1000

def cacheTTL : ℤ := 24 * 60 * 60 * 1000

/-- `getCacheKey`: note the `text.substring(0, 50)` truncation. -/
def getCacheKey (text fromLang toLang : String) (service : Option String) : String :=
  let serviceKey := service.getD "default"
  serviceKey ++ ":" ++ fromLang ++ ":" ++ toLang ++ ":" ++ text.take 50

structure CacheState where
  entries : List (String × CacheEntry)
  totalHits : ℕ
  totalMisses : ℕ
deriving Repr

def emptyCache : CacheState := ⟨[], 0, 0⟩

/-- The scan of `evictLeastUsed`: the running best starts from
`leastHitCount = Infinity` (modelled `none`, which any finite score beats);
afterwards each entry's score `hitCount*1000 + (now - timestamp)` is compared
against the stored best's score. -/
def evictScan (now : ℤ) :
    List (String × CacheEntry) → Option (String × ℤ × ℕ) → Option (String × ℤ × ℕ)
  | [], best => best
  | (k, e) :: rest, best =>
    let newBest :=
      match best with
      | none => some (k, e.timestamp, e.hitCount)
      | some (bk, bt, bh) =>
        if (e.hitCount : ℤ) * 1000 + (now - e.timestamp) <
            (bh : ℤ) * 1000 + (now - bt) then
          some (k, e.timestamp, e.hitCount)
        else some (bk, bt, bh)
    evictScan now rest newBest

/-- `evictLeastUsed`: delete the selected key (the JS `if (leastUsedKey)`
guard also skips a falsy empty-string key). -/
def evictLeastUsed (entries : List (String × CacheEntry)) (now : ℤ) :
    List (String × CacheEntry) :=
  match evictScan now entries none with
  | some (k, _, _) => if k = "" then entries else entries.eraseP (fun e => e.1 == k)
  | none => entries

namespace TranslationCache

/-- `TranslationCache.set`. -/
def set (st : CacheState) (now : ℤ) (text translated fromLang toLang : String)
    (service : Option String) : CacheState :=
  let key := getCacheKey text fromLang toLang service
  let entries :=
    if MAX_MEMORY_ENTRIES ≤ st.entries.length then evictLeastUsed st.entries now
    else st.entries
  let entry : CacheEntry :=
    { originalText := text, translatedText := translated, fromLang := fromLang,
      toLang := toLang, timestamp := now, hitCount := 0, service := service }
  { st with entries := jsMapSet entries key entry }

/-- `TranslationCache.get`: returns the hit (if any) and the mutated state
(expiry removal, or `hitCount`/timestamp update on a hit). -/
def get (st : CacheState) (now : ℤ) (text fromLang toLang : String)
    (service : Option String) : Option String × CacheState :=
  let key := getCacheKey text fromLang toLang service
  match jsMapGet st.entries key with
  | none => (none, { st with totalMisses := st.totalMisses + 1 })
  | some entry =>
    if cacheTTL < now - entry.timestamp then
      (none, { st with entries := st.entries.eraseP (fun e => e.1 == key),
                       totalMisses := st.totalMisses + 1 })
    else
      (some entry.translatedText,
        { st with
          entries := jsMapSet st.entries key
            { entry with hitCount := entry.hitCount + 1, timestamp := now }
          totalHits := st.totalHits + 1 })

/-- `TranslationCache.clear`. -/
def clear (_ : CacheState) : CacheState := ⟨[], 0, 0⟩

end TranslationCache

inductive CacheOp
  | setOp (now : ℤ) (text translated fromLang toLang : String) (service : Option String)
  | getOp (now : ℤ) (text fromLang toLang : String) (service : Option String)
  | clearOp

def applyCacheOp (st : CacheState) : CacheOp → CacheState
  | .setOp now t tr f g svc => TranslationCache.set st now t tr f g svc
  | .getOp now t f g svc => (TranslationCache.get st now t f g svc).2
  | .clearOp => TranslationCache.clear st

/-- Cache states reachable from a fresh empty cache by any operation sequence. -/
inductive CacheReachable : CacheState → Prop
  | init : CacheReachable emptyCache
  | step (st : CacheState) (op : CacheOp) :
      CacheReachable st → CacheReachable (applyCacheOp st op)

theorem string_append_left_cancel {s t u : String} (h : s ++ t = s ++ u) : t = u := by
  have h2 : (s ++ t).data = (s ++ u).data := congrArg String.data h
  rw [String.data_append, String.data_append] at h2
  exact String.ext (List.append_cancel_left h2)

theorem getCacheKey_inj_text (t₁ t₂ f g : String) (svc : Option String)
    (hne : t₁.take 50 ≠ t₂.take 50) :
    getCacheKey t₁ f g svc ≠ getCacheKey t₂ f g svc := by
  intro h
  exact hne (string_append_left_cancel h)

theorem getCacheKey_ne_empty (t f g : String) (svc : Option String) :
    getCacheKey t f g svc ≠ "" := by
  intro h
  have h2 : (getCacheKey t f g svc).length = 0 := by rw [h]; rfl
  have hc1 : (":" : String).length = 1 := rfl
  simp only [getCacheKey, String.length_append, hc1] at h2
  omega

theorem evictScan_key_mem (now : ℤ) (l : List (String × CacheEntry)) :
    ∀ (best : Option (String × ℤ × ℕ)) (k : String) (ts : ℤ) (hc : ℕ),
      evictScan now l best = some (k, ts, hc) →
      (∃ e ∈ l, e.1 = k) ∨ best = some (k, ts, hc) := by
  induction l with
  | nil => intro best k ts hc h; exact Or.inr h
  | cons hd tl ih =>
    obtain ⟨hk0, he0⟩ := hd
    intro best k ts hc h
    simp only [evictScan] at h
    rcases ih _ k ts hc h with h1 | h1
    · obtain ⟨e, he, hek⟩ := h1
      exact Or.inl ⟨e, List.mem_cons_of_mem _ he, hek⟩
    · cases best with
      | none =>
        simp only [Option.some.injEq, Prod.mk.injEq] at h1
        exact Or.inl ⟨(hk0, he0), List.mem_cons_self _ tl, h1.1⟩
      | some b =>
        obtain ⟨bk, bt, bh⟩ := b
        simp only at h1
        split at h1
        · simp only [Option.some.injEq, Prod.mk.injEq] at h1
          exact Or.inl ⟨(hk0, he0), List.mem_cons_self _ tl, h1.1⟩
        · exact Or.inr h1

theorem evictScan_isSome (now : ℤ) (l : List (String × CacheEntry)) :
    ∀ best : Option (String × ℤ × ℕ), l ≠ [] ∨ best.isSome →
      (evictScan now l best).isSome := by
  induction l with
  | nil =>
    intro best h
    rcases h with h | h
    · exact absurd rfl h
    · simpa [evictScan] using h
  | cons hd tl ih =>
    obtain ⟨hk0, he0⟩ := hd
    intro best h
    simp only [evictScan]
    apply ih
    right
    cases best with
    | none => rfl
    | some b =>
      obtain ⟨bk, bt, bh⟩ := b
      by_cases hlt : (he0.hitCount : ℤ) * 1000 + (now - he0.timestamp) <
          (bh : ℤ) * 1000 + (now - bt)
      · simp [hlt]
      · simp [hlt]

theorem evictLeastUsed_length (entries : List (String × CacheEntry)) (now : ℤ)
    (hne : entries ≠ []) (hkeys : ∀ e ∈ entries, e.1 ≠ "") :
    (evictLeastUsed entries now).length + 1 = entries.length := by
  have hsome := evictScan_isSome now entries none (Or.inl hne)
  obtain ⟨⟨k, ts, hc⟩, hk⟩ := Option.isSome_iff_exists.mp hsome
  have hmem := evictScan_key_mem now entries none k ts hc hk
  rcases hmem with ⟨e, he, hek⟩ | h1
  · have hkne : k ≠ "" := hek ▸ hkeys e he
    simp only [evictLeastUsed, hk, if_neg hkne]
    exact List.length_eraseP_add_one he (by simp [hek])
  · exact absurd h1 (by simp)

theorem evictLeastUsed_keys_subset (entries : List (String × CacheEntry)) (now : ℤ) :
    ∀ e ∈ evictLeastUsed entries now, e ∈ entries := by
  intro e he
  rcases hscan : evictScan now entries none with - | ⟨k, ts, hc⟩
  · simp only [evictLeastUsed, hscan] at he
    exact he
  · by_cases hk : k = ""
    · simp only [evictLeastUsed, hscan, if_pos hk] at he
      exact he
    · simp only [evictLeastUsed, hscan, if_neg hk] at he
      exact List.mem_of_mem_eraseP he

/-- The inductive invariant of the in-memory table: bounded size, and every
key was produced by `getCacheKey` (in particular is nonempty). -/
def CacheInv (st : CacheState) : Prop :=
  st.entries.length ≤ MAX_MEMORY_ENTRIES ∧ ∀ e ∈ st.entries, e.1 ≠ ""

theorem set_preserves_inv (st : CacheState) (now : ℤ)
    (t tr f g : String) (svc : Option String) (h : CacheInv st) :
    CacheInv (TranslationCache.set st now t tr f g svc) := by
  obtain ⟨hlen, hkeys⟩ := h
  rw [TranslationCache.set]
  by_cases hcap : MAX_MEMORY_ENTRIES ≤ st.entries.length
  · have hne : st.entries ≠ [] := by
      intro hnil
      rw [hnil] at hcap
      simp [MAX_MEMORY_ENTRIES] at hcap
    have hev := evictLeastUsed_length st.entries now hne hkeys
    constructor
    · simp only [if_pos hcap]
      calc (jsMapSet (evictLeastUsed st.entries now) (getCacheKey t f g svc) _).length
          ≤ (evictLeastUsed st.entries now).length + 1 := jsMapSet_length_le _ _ _
        _ = st.entries.length := hev
        _ ≤ MAX_MEMORY_ENTRIES := hlen
    · simp only [if_pos hcap]
      intro e he
      rcases jsMapSet_keys_subset _ _ _ e he with h1 | h1
      · rw [h1]; exact getCacheKey_ne_empty t f g svc
      · obtain ⟨e', he', hee⟩ := List.mem_map.mp h1
        have := evictLeastUsed_keys_subset st.entries now e' he'
        exact hee ▸ hkeys e' this
  · push_neg at hcap
    constructor
    · simp only [if_neg (not_le.mpr hcap)]
      calc (jsMapSet st.entries (getCacheKey t f g svc) _).length
          ≤ st.entries.length + 1 := jsMapSet_length_le _ _ _
        _ ≤ MAX_MEMORY_ENTRIES := hcap
    · simp only [if_neg (not_le.mpr hcap)]
      intro e he
      rcases jsMapSet_keys_subset _ _ _ e he with h1 | h1
      · rw [h1]; exact getCacheKey_ne_empty t f g svc
      · obtain ⟨e', he', hee⟩ := List.mem_map.mp h1
        exact hee ▸ hkeys e' he'

theorem get_preserves_inv (st : CacheState) (now : ℤ)
    (t f g : String) (svc : Option String) (h : CacheInv st) :
    CacheInv (TranslationCache.get st now t f g svc).2 := by
  obtain ⟨hlen, hkeys⟩ := h
  rw [TranslationCache.get]
  rcases hlook : jsMapGet st.entries (getCacheKey t f g svc) with - | entry
  · exact ⟨hlen, hkeys⟩
  · by_cases httl : cacheTTL < now - entry.timestamp
    · simp only [if_pos httl]
      refine ⟨le_trans (List.length_eraseP_le _) hlen, ?_⟩
      intro e he
      exact hkeys e (List.mem_of_mem_eraseP he)
    · simp only [if_neg httl]
      refine ⟨?_, ?_⟩
      · rw [jsMapSet_length_of_get_some st.entries _ _ (by rw [hlook]; rfl)]
        exact hlen
      · intro e he
        rcases jsMapSet_keys_subset _ _ _ e he with h1 | h1
        · rw [h1]; exact getCacheKey_ne_empty t f g svc
        · obtain ⟨e', he', hee⟩ := List.mem_map.mp h1
          exact hee ▸ hkeys e' he'

theorem cacheInv_reachable (st : CacheState) (h : CacheReachable st) : CacheInv st := by
  induction h with
  | init => exact ⟨by simp [emptyCache, MAX_MEMORY_ENTRIES], by simp [emptyCache]⟩
  | step st op hr ih =>
    cases op with
    | setOp now t tr f g svc => exact set_preserves_inv st now t tr f g svc ih
    | getOp now t f g svc => exact get_preserves_inv st now t f g svc ih
    | clearOp => exact ⟨by simp [applyCacheOp, TranslationCache.clear, MAX_MEMORY_ENTRIES],
        by simp [applyCacheOp, TranslationCache.clear]⟩

/-- C6: after `set(text, translated, from, to, service)`, a `get` of the same
tuple within the TTL returns exactly the stored value and increments the
entry's `hitCount` by one (from 0 to 1). -/
theorem cache_set_then_get (st : CacheState) (n₁ n₂ : ℤ)
    (text translated f g : String) (svc : Option String)
    (h : n₂ - n₁ ≤ cacheTTL) :
    (jsMapGet (TranslationCache.set st n₁ text translated f g svc).entries
        (getCacheKey text f g svc)).map (·.hitCount) = some 0 ∧
    (TranslationCache.get (TranslationCache.set st n₁ text translated f g svc)
        n₂ text f g svc).1 = some translated ∧
    (jsMapGet (TranslationCache.get (TranslationCache.set st n₁ text translated f g svc)
          n₂ text f g svc).2.entries
        (getCacheKey text f g svc)).map (·.hitCount) = some 1 := by
  have hset : jsMapGet (TranslationCache.set st n₁ text translated f g svc).entries
      (getCacheKey text f g svc) = some
      { originalText := text, translatedText := translated, fromLang := f,
        toLang := g, timestamp := n₁, hitCount := 0, service := svc } := by
    simp only [TranslationCache.set]
    exact jsMapGet_set_self _ _ _
  have httl : ¬ cacheTTL < n₂ - n₁ := not_lt.mpr h
  refine ⟨by rw [hset]; rfl, ?_, ?_⟩
  · simp only [TranslationCache.get, hset, if_neg httl]
  · simp only [TranslationCache.get, hset, if_neg httl]
    rw [jsMapGet_set_self]
    rfl

/-- Witness for C6 at a concrete set/get pair. -/
theorem cache_set_then_get_witness :
    ((5 : ℤ) - 0 ≤ cacheTTL) ∧
    (jsMapGet (TranslationCache.set emptyCache 0 "hello" "bonjour" "en" "fr"
        (some "google")).entries
      (getCacheKey "hello" "en" "fr" (some "google"))).map (·.hitCount) = some 0 ∧
    (TranslationCache.get (TranslationCache.set emptyCache 0 "hello" "bonjour" "en" "fr"
        (some "google")) 5 "hello" "en" "fr" (some "google")).1 = some "bonjour" ∧
    (jsMapGet (TranslationCache.get (TranslationCache.set emptyCache 0 "hello" "bonjour"
          "en" "fr" (some "google")) 5 "hello" "en" "fr" (some "google")).2.entries
      (getCacheKey "hello" "en" "fr" (some "google"))).map (·.hitCount) = some 1 :=
  ⟨by decide,
    cache_set_then_get emptyCache 0 5 "hello" "bonjour" "en" "fr" (some "google") (by decide)⟩

/-- C7 counterexample: the cache key truncates text to its first 50 characters
(`text.substring(0, 50)`), so two distinct 51-character texts sharing a
50-character prefix collide: after `set` for the first text, a `get` for the
second distinct text returns the first text's translation. -/
theorem cache_key_truncation_counterexample :
    ("aaaaaaaaaaaaaaaaaaaaaaaaaaaaaaaaaaaaaaaaaaaaaaaaaaX" : String) ≠
      "aaaaaaaaaaaaaaaaaaaaaaaaaaaaaaaaaaaaaaaaaaaaaaaaaaY" ∧
    (TranslationCache.get
        (TranslationCache.set emptyCache 0
          "aaaaaaaaaaaaaaaaaaaaaaaaaaaaaaaaaaaaaaaaaaaaaaaaaaX" "v1" "en" "fr"
          (some "google"))
        0 "aaaaaaaaaaaaaaaaaaaaaaaaaaaaaaaaaaaaaaaaaaaaaaaaaaY" "en" "fr"
        (some "google")).1 = some "v1" := by
  refine ⟨by decide, by decide⟩

/-- C7 (amended): entries are keyed by
(service, sourceLang, targetLang, first 50 characters of text). For two texts
that differ within their first 50 characters (same service and language pair),
the keys are distinct, and a `set` for the first text leaves the second text's
binding untouched (below capacity, where no eviction runs). -/
theorem cache_key_separation (st : CacheState) (now : ℤ)
    (t₁ t₂ v₁ f g : String) (svc : Option String)
    (hne : t₁.take 50 ≠ t₂.take 50)
    (hcap : st.entries.length < MAX_MEMORY_ENTRIES) :
    getCacheKey t₁ f g svc ≠ getCacheKey t₂ f g svc ∧
    jsMapGet (TranslationCache.set st now t₁ v₁ f g svc).entries
        (getCacheKey t₂ f g svc) =
      jsMapGet st.entries (getCacheKey t₂ f g svc) := by
  refine ⟨getCacheKey_inj_text t₁ t₂ f g svc hne, ?_⟩
  simp only [TranslationCache.set, if_neg (not_le.mpr hcap)]
  exact jsMapGet_set_other _ _ _ _ (getCacheKey_inj_text t₁ t₂ f g svc hne)

/-- Witness for the amended C7 theorem. -/
theorem cache_key_separation_witness :
    (("x" : String).take 50 ≠ ("y" : String).take 50) ∧
    emptyCache.entries.length < MAX_MEMORY_ENTRIES ∧
    getCacheKey "x" "en" "fr" none ≠ getCacheKey "y" "en" "fr" none ∧
    jsMapGet (TranslationCache.set emptyCache 0 "x" "tx" "en" "fr" none).entries
        (getCacheKey "y" "en" "fr" none) =
      jsMapGet emptyCache.entries (getCacheKey "y" "en" "fr" none) :=
  ⟨by decide, by decide,
    cache_key_separation emptyCache 0 "x" "y" "tx" "en" "fr" none (by decide) (by decide)⟩

/-- C8: for every sequence of cache operations starting from a fresh cache,
the number of entries — in particular immediately after any `set`, which
evicts the lowest-scoring entry when at capacity — never exceeds the
configured maximum entry count. -/
theorem cache_size_bounded (st : CacheState) (h : CacheReachable st) :
    st.entries.length ≤ MAX_MEMORY_ENTRIES :=
  (cacheInv_reachable st h).1

/-- Witness for C8 after a concrete `set` on the reachable empty cache. -/
theorem cache_size_bounded_witness :
    (applyCacheOp emptyCache (.setOp 0 "hello" "bonjour" "en" "fr" none)).entries.length
      ≤ MAX_MEMORY_ENTRIES :=
  cache_size_bounded _
    (CacheReachable.step emptyCache (.setOp 0 "hello" "bonjour" "en" "fr" none)
      CacheReachable.init)

/-! ### Bounded work pool (`PromisePool` in `parallelProcessor.ts`) -/

/-- Stable insertion by strictly greater priority: an element is placed after
every element of priority ≥ its own, which is exactly the (unique) sorted and
stable result mandated for JS `sort((a, b) => b.priority - a.priority)`. -/
def insertDescBy {α : Type} (p : α → ℤ) (x : α) : List α → List α
  | [] => [x]
  | y :: ys => if p y < p x then x :: y :: ys else y :: insertDescBy p x ys

/-- Stable sort by descending priority (JS `sort` with the code's comparator). -/
def sortDescBy {α : Type} (p : α → ℤ) : List α → List α
  | [] => []
  | x :: xs => insertDescBy p x (sortDescBy p xs)

theorem insertDescBy_perm {α : Type} (p : α → ℤ) (x : α) (l : List α) :
    (insertDescBy p x l).Perm (x :: l) := by
  induction l with
  | nil => exact List.Perm.refl _
  | cons y ys ih =>
    rw [insertDescBy]
    by_cases h : p y < p x
    · rw [if_pos h]
    · rw [if_neg h]
      exact (List.Perm.cons y ih).trans (List.Perm.swap x y ys)

theorem sortDescBy_perm {α : Type} (p : α → ℤ) (l : List α) :
    (sortDescBy p l).Perm l := by
  induction l with
  | nil => exact List.Perm.refl _
  | cons x xs ih =>
    rw [sortDescBy]
    exact (insertDescBy_perm p x (sortDescBy p xs)).trans (List.Perm.cons x ih)

structure QueueItem where
  opId : ℕ
  priority : ℤ
deriving DecidableEq, Repr

/-- The pool's observable state: the `running` counter and the pending queue. -/
structure PoolState where
  running : ℕ
  queue : List QueueItem
deriving DecidableEq, Repr

def initialPoolState : PoolState := { running := 0, queue := [] }

/-- Event-level transitions of `PromisePool`:
- `add` pushes an item onto the queue (the triggered `processNext` is a
  separate `dispatch` event);
- `dispatch` is `processNext` passing its guard (`running < maxConcurrent`,
  nonempty queue): the queue is re-sorted by priority, the head popped, and
  `running` incremented before the rate-limit delay and the operation itself;
- `settle` is an operation's `finally` block: `running` decremented. -/
inductive PoolStep (maxConcurrent : ℕ) : PoolState → PoolState → Prop
  | add (s : PoolState) (item : QueueItem) :
      PoolStep maxConcurrent s { running := s.running, queue := s.queue ++ [item] }
  | dispatch (s : PoolState) (h : s.running < maxConcurrent) (hq : s.queue ≠ []) :
      PoolStep maxConcurrent s
        { running := s.running + 1, queue := (sortDescBy (·.priority) s.queue).tail }
  | settle (s : PoolState) (h : 0 < s.running) :
      PoolStep maxConcurrent s { running := s.running - 1, queue := s.queue }

theorem poolStep_running_le (mc : ℕ) (s s' : PoolState) (h : s.running ≤ mc)
    (hstep : PoolStep mc s s') : s'.running ≤ mc := by
  cases hstep with
  | add item => exact h
  | dispatch hlt hq => exact hlt
  | settle hpos => exact le_trans (Nat.sub_le _ _) h

/-- C9: along every execution of the pool from its initial state, the number
of dispatched-but-unsettled operations never exceeds `maxConcurrent`. -/
theorem promisePool_running_bounded (mc : ℕ) (s : PoolState)
    (hr : Relation.ReflTransGen (PoolStep mc) initialPoolState s) :
    s.running ≤ mc := by
  induction hr with
  | refl => exact Nat.zero_le mc
  | tail hab hbc ih => exact poolStep_running_le mc _ _ ih hbc

/-- Witness for C9: a concrete three-event trace (add, dispatch, settle)
under `maxConcurrent = 2`. -/
theorem promisePool_running_bounded_witness :
    (PoolState.mk 0 []).running ≤ 2 :=
  promisePool_running_bounded 2 { running := 0, queue := [] }
    (Relation.ReflTransGen.tail
      (Relation.ReflTransGen.tail
        (Relation.ReflTransGen.tail Relation.ReflTransGen.refl
          (PoolStep.add initialPoolState { opId := 0, priority := 5 }))
        (PoolStep.dispatch { running := 0, queue := [{ opId := 0, priority := 5 }] }
          (by decide) (by decide)))
      (PoolStep.settle { running := 1, queue := [] } (by decide)))

/-! ### Smart batch translation
(`ParallelTranslationProcessor.translateSmartBatch` and the per-service
`batchTranslate` orchestrator built on it)

The pooled asynchronous execution applies a pure, caller-supplied translator
(modelled `String → Except String String`) once per deduplicated text; since
distinct keys receive independent writes, the result map is the same for every
completion order, and the execution is modelled as the in-order fold over the
created batches. The second component of the run is the list of translator
invocations, in dispatch order. -/

structure BatchItem where
  key : String
  text : String
deriving DecidableEq, Repr

/-- One step of the `uniqueTexts` grouping:
`keys = uniqueTexts.get(item.text) || []; keys.push(item.key); uniqueTexts.set(item.text, keys)`. -/
def addItem (m : List (String × List String)) (it : BatchItem) :
    List (String × List String) :=
  jsMapSet m it.text ((jsMapGet m it.text).getD [] ++ [it.key])

/-- The dedup `Map<string, string[]>` from texts to the keys sharing them. -/
def uniqueTexts (items : List BatchItem) : List (String × List String) :=
  items.foldl addItem []

/-- The characters counted by the "complexity" regex: percent (37),
opening brace (123), closing brace (125) and backslash (92). -/
def isSpecialChar (c : Char) : Bool :=
  c.toNat == 37 || c.toNat == 123 || c.toNat == 125 || c.toNat == 92

/-- `calculatePriority(text, usageCount)`:
`usageCount*10 + isShort*5 - complexity - floor(length/100)`. -/
def calculatePriority (text : String) (usageCount : ℕ) : ℤ :=
  let length := text.length
  let complexity := (text.data.filter isSpecialChar).length
  let isShort : ℕ := if length < 50 then 2 else if length < 200 then 1 else 0
  (usageCount : ℤ) * 10 + (isShort : ℤ) * 5 - (complexity : ℤ) - ((length / 100 : ℕ) : ℤ)

structure TransTask where
  text : String
  keys : List String
  priority : ℤ
deriving DecidableEq, Repr

def mkTask (p : String × List String) : TransTask :=
  { text := p.1, keys := p.2, priority := calculatePriority p.1 p.2.length }

/-- The prioritized task list: one task per unique text, sorted by descending
priority (stable, as JS `sort`). -/
def translationTasks (items : List BatchItem) : List TransTask :=
  sortDescBy (·.priority) ((uniqueTexts items).map mkTask)

/-- The loop body of `createSmartBatches`: close the current batch when it has
reached `maxConcurrent * 2` items, or when its cumulative character count
exceeds 1000 and the next text itself exceeds 500 characters. -/
def smartBatchesAux (maxBatchSize : ℕ) :
    List TransTask → List TransTask → ℕ → List (List TransTask)
  | [], cur, _ => if cur.isEmpty then [] else [cur]
  | t :: ts, cur, size =>
    if (maxBatchSize ≤ cur.length ∨ (1000 < size ∧ 500 < t.text.length)) ∧ cur ≠ [] then
      cur :: smartBatchesAux maxBatchSize ts [t] t.text.length
    else
      smartBatchesAux maxBatchSize ts (cur ++ [t]) (size + t.text.length)

def createSmartBatches (maxConcurrent : ℕ) (tasks : List TransTask) :
    List (List TransTask) :=
  smartBatchesAux (maxConcurrent * 2) tasks [] 0

/-- Settlement of one task: one translator invocation for the task's text, and
the fan-out of its outcome to every key sharing that text. -/
def runTask {α : Type} (resultOf : String → α)
    (acc : List (String × α) × List String) (task : TransTask) :
    List (String × α) × List String :=
  let v := resultOf task.text
  (task.keys.foldl (fun res k => jsMapSet res k v) acc.1, acc.2 ++ [task.text])

/-- Execution of the created batches (`for (const batch of batches) await
this.pool.addAll(...)`). -/
def runBatches {α : Type} (resultOf : String → α)
    (batches : List (List TransTask)) : List (String × α) × List String :=
  batches.foldl (fun acc batch => batch.foldl (runTask resultOf) acc) ([], [])

/-- The common dedup/prioritize/chunk/execute pipeline of both
`translateSmartBatch` versions; they differ only in the per-key value
written in the success and catch branches (`resultOf`). -/
def smartBatchRun {α : Type} (resultOf : String → α) (maxConcurrent : ℕ)
    (items : List BatchItem) : List (String × α) × List String :=
  runBatches resultOf (createSmartBatches maxConcurrent (translationTasks items))

inductive TransOutcome
  | ok (translated : String)
  | err (message : String)
deriving DecidableEq, Repr

/-- The value stored for each key by the adaptive-era `translateSmartBatch`:
the translated text, or the error object carrying the prefixed message. -/
def outcomeOf (translator : String → Except String String) (text : String) :
    TransOutcome :=
  match translator text with
  | .ok translated => .ok translated
  | .error e => .err ("翻訳失敗: " ++ e)

/-- `translateSmartBatch` (the version returning
`Map<string, string | error-object>`): the key→outcome map plus the list of
translator invocations. -/
def translateSmartBatch (translator : String → Except String String)
    (maxConcurrent : ℕ) (items : List BatchItem) :
    List (String × TransOutcome) × List String :=
  smartBatchRun (outcomeOf translator) maxConcurrent items

namespace Legacy

/-- The earlier `translateSmartBatch` (`Map<string, string>` results): a failed
translation stores the key's original text as its value. -/
def translateSmartBatch (translator : String → Except String String)
    (maxConcurrent : ℕ) (items : List BatchItem) :
    List (String × String) × List String :=
  smartBatchRun
    (fun text =>
      match translator text with
      | .ok translated => translated
      | .error _ => text)
    maxConcurrent items

end Legacy

theorem jsMapGet_mem {α : Type} (m : List (String × α)) (k : String) (v : α)
    (h : jsMapGet m k = some v) : (k, v) ∈ m := by
  induction m with
  | nil => simp [jsMapGet] at h
  | cons hd tl ih =>
    obtain ⟨k0, v0⟩ := hd
    by_cases hh : k0 = k
    · simp only [jsMapGet, if_pos hh, Option.some.injEq] at h
      rw [← hh, ← h]
      exact List.mem_cons_self _ _
    · simp only [jsMapGet, if_neg hh] at h
      exact List.mem_cons_of_mem _ (ih h)

theorem jsMapSet_keys {α : Type} (m : List (String × α)) (k : String) (v : α) :
    (jsMapSet m k v).map Prod.fst =
      if k ∈ m.map Prod.fst then m.map Prod.fst else m.map Prod.fst ++ [k] := by
  induction m with
  | nil => simp [jsMapSet]
  | cons hd tl ih =>
    by_cases hh : hd.1 = k
    · simp [jsMapSet, hh]
    · have hne : k ≠ hd.1 := fun h => hh h.symm
      simp only [jsMapSet, if_neg hh, List.map_cons, ih, List.mem_cons]
      by_cases hmem : k ∈ tl.map Prod.fst
      · simp [hmem, hne]
      · simp [hmem, hne]

theorem jsMapSet_keys_nodup {α : Type} (m : List (String × α)) (k : String) (v : α)
    (h : (m.map Prod.fst).Nodup) : ((jsMapSet m k v).map Prod.fst).Nodup := by
  rw [jsMapSet_keys]
  by_cases hmem : k ∈ m.map Prod.fst
  · rwa [if_pos hmem]
  · rw [if_neg hmem]
    exact List.Nodup.append h (List.nodup_singleton k) (by simpa using hmem)

/-- Fan-out of a single value to a list of keys
(`keys.forEach(key => results.set(key, v))`). -/
theorem fanOut_get {α : Type} (v : α) (ks : List String)
    (m : List (String × α)) (k : String) :
    jsMapGet (ks.foldl (fun res k' => jsMapSet res k' v) m) k =
      if k ∈ ks then some v else jsMapGet m k := by
  induction ks generalizing m with
  | nil => simp
  | cons k0 ks ih =>
    rw [List.foldl_cons, ih]
    by_cases hk : k ∈ ks
    · simp [hk]
    · simp only [if_neg hk]
      by_cases h0 : k = k0
      · subst h0
        simp [jsMapGet_set_self]
      · rw [jsMapGet_set_other _ _ _ _ (fun h => h0 h.symm)]
        simp [List.mem_cons, h0, hk]

theorem runFold_get_notmem {α : Type} (f : String → α) (tasks : List TransTask)
    (acc : List (String × α) × List String) (k : String)
    (h : ∀ tk ∈ tasks, k ∉ tk.keys) :
    jsMapGet ((tasks.foldl (runTask f) acc).1) k = jsMapGet acc.1 k := by
  induction tasks generalizing acc with
  | nil => rfl
  | cons t ts ih =>
    rw [List.foldl_cons,
      ih (runTask f acc t) (fun tk htk => h tk (List.mem_cons_of_mem _ htk))]
    show jsMapGet (t.keys.foldl _ acc.1) k = _
    rw [fanOut_get, if_neg (h t (List.mem_cons_self _ _))]

theorem runFold_get {α : Type} (f : String → α) (tasks : List TransTask)
    (acc : List (String × α) × List String) (k : String) (tk : TransTask)
    (htm : tk ∈ tasks) (hkm : k ∈ tk.keys)
    (hc : ((tasks.map (·.keys)).flatten).count k ≤ 1) :
    jsMapGet ((tasks.foldl (runTask f) acc).1) k = some (f tk.text) := by
  induction tasks generalizing acc with
  | nil => cases htm
  | cons t ts ih =>
    rw [List.foldl_cons]
    simp only [List.map_cons, List.flatten_cons, List.count_append] at hc
    by_cases hkt : k ∈ t.keys
    · have hcnt1 : 0 < t.keys.count k := List.count_pos_iff.mpr hkt
      have hrest : ((ts.map (·.keys)).flatten).count k = 0 := by omega
      have hnone : ∀ tk' ∈ ts, k ∉ tk'.keys := by
        intro tk' htk' hmem
        exact (List.count_eq_zero.mp hrest)
          (List.mem_flatten.mpr ⟨tk'.keys, List.mem_map.mpr ⟨tk', htk', rfl⟩, hmem⟩)
      rw [runFold_get_notmem f ts _ k hnone]
      show jsMapGet (t.keys.foldl _ acc.1) k = _
      rw [fanOut_get, if_pos hkt]
      rcases List.mem_cons.mp htm with rfl | htm'
      · rfl
      · exact absurd hkm (hnone tk htm')
    · rcases List.mem_cons.mp htm with rfl | htm'
      · exact absurd hkm hkt
      · exact ih (runTask f acc t) htm' (by omega)

theorem runFold_isSome {α : Type} (f : String → α) (tasks : List TransTask)
    (acc : List (String × α) × List String) (k : String) :
    (jsMapGet ((tasks.foldl (runTask f) acc).1) k).isSome ↔
      (∃ tk ∈ tasks, k ∈ tk.keys) ∨ (jsMapGet acc.1 k).isSome := by
  induction tasks generalizing acc with
  | nil => simp
  | cons t ts ih =>
    rw [List.foldl_cons, ih]
    have hstep : jsMapGet (runTask f acc t).1 k =
        if k ∈ t.keys then some (f t.text) else jsMapGet acc.1 k := fanOut_get _ _ _ _
    rw [hstep]
    by_cases hkt : k ∈ t.keys
    · rw [if_pos hkt]
      constructor
      · intro
        exact Or.inl ⟨t, List.mem_cons_self _ _, hkt⟩
      · intro
        exact Or.inr rfl
    · simp only [if_neg hkt]
      constructor
      · rintro (⟨tk, htk, hm⟩ | hs)
        · exact Or.inl ⟨tk, List.mem_cons_of_mem _ htk, hm⟩
        · exact Or.inr hs
      · rintro (⟨tk, htk, hm⟩ | hs)
        · rcases List.mem_cons.mp htk with rfl | htk'
          · exact absurd hm hkt
          · exact Or.inl ⟨tk, htk', hm⟩
        · exact Or.inr hs

theorem runFold_calls {α : Type} (f : String → α) (tasks : List TransTask)
    (acc : List (String × α) × List String) :
    (tasks.foldl (runTask f) acc).2 = acc.2 ++ tasks.map (·.text) := by
  induction tasks generalizing acc with
  | nil => simp
  | cons t ts ih =>
    rw [List.foldl_cons, ih]
    simp [runTask, List.append_assoc]

/-- Chunking never loses or duplicates a task: the created batches flatten
back to the task list. -/
theorem smartBatchesAux_flatten (m : ℕ) (ts : List TransTask) :
    ∀ (cur : List TransTask) (size : ℕ),
      (smartBatchesAux m ts cur size).flatten = cur ++ ts := by
  induction ts with
  | nil =>
    intro cur size
    by_cases h : cur.isEmpty
    · simp [smartBatchesAux, h, List.isEmpty_iff.mp h]
    · simp [smartBatchesAux, h]
  | cons t ts ih =>
    intro cur size
    rw [smartBatchesAux]
    by_cases h : (m ≤ cur.length ∨ (1000 < size ∧ 500 < t.text.length)) ∧ cur ≠ []
    · rw [if_pos h]
      simp [ih]
    · rw [if_neg h]
      rw [ih]
      simp

theorem createSmartBatches_flatten (mc : ℕ) (tasks : List TransTask) :
    (createSmartBatches mc tasks).flatten = tasks := by
  rw [createSmartBatches, smartBatchesAux_flatten]
  rfl

/-- The batched execution is the in-order fold over all tasks. -/
theorem smartBatchRun_eq {α : Type} (f : String → α) (mc : ℕ)
    (items : List BatchItem) :
    smartBatchRun f mc items = (translationTasks items).foldl (runTask f) ([], []) := by
  rw [smartBatchRun, runBatches, ← List.foldl_flatten, createSmartBatches_flatten]

/-- Grouping step: `addItem` leaves every other text's binding alone and
appends the key to its own text's group. -/
theorem foldl_addItem_get (pending : List BatchItem) :
    ∀ (m : List (String × List String)) (t : String),
      jsMapGet (pending.foldl addItem m) t =
        if jsMapGet m t = none ∧ (pending.filter (fun it => it.text == t)).isEmpty then
          none
        else
          some ((jsMapGet m t).getD [] ++
            (pending.filter (fun it => it.text == t)).map (·.key)) := by
  induction pending with
  | nil =>
    intro m t
    cases h : jsMapGet m t <;> simp [h]
  | cons it rest ih =>
    intro m t
    rw [List.foldl_cons, ih]
    by_cases hts : it.text = t
    · have hfil : (it :: rest).filter (fun it' => it'.text == t) =
          it :: rest.filter (fun it' => it'.text == t) := by
        simp [List.filter_cons, hts]
      have hget : jsMapGet (addItem m it) t =
          some ((jsMapGet m t).getD [] ++ [it.key]) := by
        rw [addItem, ← hts, jsMapGet_set_self]
      rw [hget, hfil]
      cases hm : jsMapGet m t <;> simp
    · have hfil : (it :: rest).filter (fun it' => it'.text == t) =
          rest.filter (fun it' => it'.text == t) := by
        simp [List.filter_cons, hts]
      have hget : jsMapGet (addItem m it) t = jsMapGet m t := by
        rw [addItem, jsMapGet_set_other _ _ _ _ hts]
      rw [hget, hfil]

theorem uniqueTexts_get (items : List BatchItem) (t : String) :
    jsMapGet (uniqueTexts items) t =
      if (items.filter (fun it => it.text == t)).isEmpty then none
      else some ((items.filter (fun it => it.text == t)).map (·.key)) := by
  rw [uniqueTexts, foldl_addItem_get]
  simp [jsMapGet]

/-- Every item's key lands in its text's group. -/
theorem uniqueTexts_key_mem (items : List BatchItem) (it : BatchItem)
    (h : it ∈ items) :
    ∃ ks, jsMapGet (uniqueTexts items) it.text = some ks ∧ it.key ∈ ks := by
  have hmem : it ∈ items.filter (fun it' => it'.text == it.text) :=
    List.mem_filter.mpr ⟨h, by simp⟩
  have hne : ¬ (items.filter (fun it' => it'.text == it.text)).isEmpty := by
    rw [List.isEmpty_iff]
    intro hnil
    rw [hnil] at hmem
    cases hmem
  rw [uniqueTexts_get, if_neg (by simp [hne])]
  exact ⟨_, rfl, List.mem_map.mpr ⟨it, hmem, rfl⟩⟩

theorem foldl_addItem_keys_nodup (pending : List BatchItem) :
    ∀ m : List (String × List String), (m.map Prod.fst).Nodup →
      (((pending.foldl addItem m)).map Prod.fst).Nodup := by
  induction pending with
  | nil => intro m h; exact h
  | cons it rest ih =>
    intro m h
    rw [List.foldl_cons]
    exact ih _ (jsMapSet_keys_nodup _ _ _ h)

theorem uniqueTexts_keys_nodup (items : List BatchItem) :
    ((uniqueTexts items).map Prod.fst).Nodup :=
  foldl_addItem_keys_nodup items [] List.nodup_nil

/-- One `addItem` adds exactly the new key to the multiset of grouped keys. -/
theorem addItem_flatten_perm (m : List (String × List String)) (it : BatchItem) :
    (((addItem m it).map Prod.snd).flatten).Perm
      (((m.map Prod.snd).flatten) ++ [it.key]) := by
  rw [addItem]
  induction m with
  | nil => simp [jsMapGet, jsMapSet]
  | cons hd tl ih =>
    obtain ⟨k0, v0⟩ := hd
    by_cases hh : k0 = it.text
    · have hget : jsMapGet ((k0, v0) :: tl) it.text = some v0 := by
        simp [jsMapGet, hh]
      have hset : jsMapSet ((k0, v0) :: tl) it.text
            ((jsMapGet ((k0, v0) :: tl) it.text).getD [] ++ [it.key]) =
          (it.text, v0 ++ [it.key]) :: tl := by
        simp [jsMapSet, jsMapGet, hh]
      rw [hset]
      simp only [List.map_cons, List.flatten_cons]
      have h2 := List.Perm.append_left v0
        (@List.perm_append_comm _ [it.key] ((tl.map Prod.snd).flatten))
      simpa [List.append_assoc] using h2
    · have hget : jsMapGet ((k0, v0) :: tl) it.text = jsMapGet tl it.text := by
        simp [jsMapGet, hh]
      have hset : jsMapSet ((k0, v0) :: tl) it.text
            ((jsMapGet ((k0, v0) :: tl) it.text).getD [] ++ [it.key]) =
          (k0, v0) :: jsMapSet tl it.text
            ((jsMapGet tl it.text).getD [] ++ [it.key]) := by
        simp [jsMapSet, hget, hh]
      rw [hset]
      simp only [List.map_cons, List.flatten_cons]
      have h2 := List.Perm.append_left v0 ih
      simpa [List.append_assoc] using h2

/-- The grouped keys are a permutation of the submitted keys. -/
theorem uniqueTexts_flatten_perm (items : List BatchItem) :
    ((((uniqueTexts items)).map Prod.snd).flatten).Perm (items.map (·.key)) := by
  suffices h : ∀ m : List (String × List String),
      (((items.foldl addItem m).map Prod.snd).flatten).Perm
        ((m.map Prod.snd).flatten ++ items.map (·.key)) by
    simpa using h []
  induction items with
  | nil => intro m; simp
  | cons it rest ih =>
    intro m
    rw [List.foldl_cons]
    refine (ih (addItem m it)).trans ?_
    rw [List.map_cons]
    refine List.Perm.trans
      (List.Perm.append_right (rest.map (·.key)) (addItem_flatten_perm m it)) ?_
    rw [List.append_assoc]
    exact List.Perm.refl _

theorem translationTasks_perm (items : List BatchItem) :
    (translationTasks items).Perm ((uniqueTexts items).map mkTask) :=
  sortDescBy_perm _ _

/-- All task keys together are a permutation of the submitted keys. -/
theorem translationTasks_keys_perm (items : List BatchItem) :
    (((translationTasks items).map (·.keys)).flatten).Perm (items.map (·.key)) := by
  refine List.Perm.trans (List.Perm.flatten (List.Perm.map _ (translationTasks_perm items))) ?_
  rw [List.map_map]
  exact uniqueTexts_flatten_perm items

/-- The task texts are a permutation of the distinct submitted texts. -/
theorem translationTasks_texts_perm (items : List BatchItem) :
    ((translationTasks items).map (·.text)).Perm ((uniqueTexts items).map Prod.fst) := by
  refine List.Perm.trans (List.Perm.map _ (translationTasks_perm items)) ?_
  rw [List.map_map]
  exact List.Perm.refl _

/-- Every submitted item has a task carrying its text and containing its key. -/
theorem translationTasks_of_item (items : List BatchItem) (it : BatchItem)
    (h : it ∈ items) :
    ∃ tk ∈ translationTasks items, tk.text = it.text ∧ it.key ∈ tk.keys := by
  obtain ⟨ks, hget, hkm⟩ := uniqueTexts_key_mem items it h
  have hpair : (it.text, ks) ∈ uniqueTexts items := jsMapGet_mem _ _ _ hget
  refine ⟨mkTask (it.text, ks), ?_, rfl, hkm⟩
  exact ((translationTasks_perm items).mem_iff).mpr (List.mem_map.mpr ⟨_, hpair, rfl⟩)

/-- Core fact: with pairwise-distinct keys, every item's key is mapped to the
result of its own text. -/
theorem smartBatchRun_get_item {α : Type} (f : String → α) (mc : ℕ)
    (items : List BatchItem) (h : (items.map (·.key)).Nodup)
    (it : BatchItem) (hit : it ∈ items) :
    jsMapGet (smartBatchRun f mc items).1 it.key = some (f it.text) := by
  rw [smartBatchRun_eq]
  obtain ⟨tk, htk, htext, hkm⟩ := translationTasks_of_item items it hit
  have hcount : (((translationTasks items).map (·.keys)).flatten).count it.key ≤ 1 := by
    rw [(translationTasks_keys_perm items).count_eq]
    exact List.nodup_iff_count_le_one.mp h it.key
  rw [runFold_get f _ _ it.key tk htk hkm hcount, htext]

/-- Core fact: a key is present in the result map iff it was submitted. -/
theorem smartBatchRun_isSome_iff {α : Type} (f : String → α) (mc : ℕ)
    (items : List BatchItem) (k : String) :
    (jsMapGet (smartBatchRun f mc items).1 k).isSome ↔ k ∈ items.map (·.key) := by
  rw [smartBatchRun_eq, runFold_isSome]
  constructor
  · rintro (⟨tk, htk, hm⟩ | hs)
    · have : k ∈ ((translationTasks items).map (·.keys)).flatten :=
        List.mem_flatten.mpr ⟨tk.keys, List.mem_map.mpr ⟨tk, htk, rfl⟩, hm⟩
      exact (translationTasks_keys_perm items).mem_iff.mp this
    · simp [jsMapGet] at hs
  · intro hk
    obtain ⟨it, hit, hkey⟩ := List.mem_map.mp hk
    obtain ⟨tk, htk, -, hkm⟩ := translationTasks_of_item items it hit
    exact Or.inl ⟨tk, htk, hkey ▸ hkm⟩

/-- Core fact: the translator-invocation list is exactly the prioritized
unique-text list, so each distinct text is dispatched at most once. -/
theorem smartBatchRun_calls {α : Type} (f : String → α) (mc : ℕ)
    (items : List BatchItem) (t : String) :
    (smartBatchRun f mc items).2 = (translationTasks items).map (·.text) ∧
    (smartBatchRun f mc items).2.count t ≤ 1 := by
  have hcalls : (smartBatchRun f mc items).2 = (translationTasks items).map (·.text) := by
    rw [smartBatchRun_eq, runFold_calls]
    rfl
  refine ⟨hcalls, ?_⟩
  rw [hcalls, (translationTasks_texts_perm items).count_eq]
  exact List.nodup_iff_count_le_one.mp (uniqueTexts_keys_nodup items) t

/-- The spec's scenario input: entries a:"Hello", b:"World", c:"Hello". -/
def scenarioItems : List BatchItem :=
  [{ key := "a", text := "Hello" }, { key := "b", text := "World" },
   { key := "c", text := "Hello" }]

/-- The spec's scenario translator: Hello→Bonjour, World→Monde. -/
def scenarioTranslator (t : String) : Except String String :=
  if t = "Hello" then .ok "Bonjour"
  else if t = "World" then .ok "Monde"
  else .error "unexpected text"

/-- C1: for unique-key inputs, the map returned by `translateSmartBatch`
contains exactly the input key set — every submitted key is mapped to its
text's outcome (a translated text or an error descriptor) and no other key
appears. -/
theorem translateSmartBatch_keyset (translator : String → Except String String)
    (mc : ℕ) (items : List BatchItem) (h : (items.map (·.key)).Nodup) :
    (∀ k, (jsMapGet (translateSmartBatch translator mc items).1 k).isSome ↔
      k ∈ items.map (·.key)) ∧
    (∀ it ∈ items, jsMapGet (translateSmartBatch translator mc items).1 it.key =
      some (outcomeOf translator it.text)) :=
  ⟨fun k => smartBatchRun_isSome_iff (outcomeOf translator) mc items k,
   fun it hit => smartBatchRun_get_item (outcomeOf translator) mc items h it hit⟩

/-- Witness for C1 on the spec scenario. -/
theorem translateSmartBatch_keyset_witness :
    (scenarioItems.map (·.key)).Nodup ∧
    ((∀ k, (jsMapGet (translateSmartBatch scenarioTranslator 3 scenarioItems).1 k).isSome ↔
        k ∈ scenarioItems.map (·.key)) ∧
     (∀ it ∈ scenarioItems,
        jsMapGet (translateSmartBatch scenarioTranslator 3 scenarioItems).1 it.key =
          some (outcomeOf scenarioTranslator it.text))) :=
  ⟨by decide, translateSmartBatch_keyset scenarioTranslator 3 scenarioItems (by decide)⟩

/-- C2: with unique keys, two entries sharing an identical text cause at most
one translator invocation for that text, and both keys receive the same
outcome. -/
theorem translateSmartBatch_dedup (translator : String → Except String String)
    (mc : ℕ) (items : List BatchItem) (h : (items.map (·.key)).Nodup)
    (it₁ it₂ : BatchItem) (h1 : it₁ ∈ items) (h2 : it₂ ∈ items)
    (ht : it₁.text = it₂.text) :
    (translateSmartBatch translator mc items).2.count it₁.text ≤ 1 ∧
    jsMapGet (translateSmartBatch translator mc items).1 it₁.key =
      some (outcomeOf translator it₁.text) ∧
    jsMapGet (translateSmartBatch translator mc items).1 it₂.key =
      jsMapGet (translateSmartBatch translator mc items).1 it₁.key := by
  simp only [translateSmartBatch]
  refine ⟨(smartBatchRun_calls (outcomeOf translator) mc items it₁.text).2,
    smartBatchRun_get_item (outcomeOf translator) mc items h it₁ h1, ?_⟩
  rw [smartBatchRun_get_item (outcomeOf translator) mc items h it₁ h1,
    smartBatchRun_get_item (outcomeOf translator) mc items h it₂ h2, ht]

/-- Witness for C2 on the spec scenario, also checking the concrete outcome:
result a:"Bonjour", b:"Monde", c:"Bonjour", translator invoked exactly twice. -/
theorem translateSmartBatch_dedup_witness :
    (scenarioItems.map (·.key)).Nodup ∧
    ((translateSmartBatch scenarioTranslator 3 scenarioItems).2.count "Hello" ≤ 1 ∧
     jsMapGet (translateSmartBatch scenarioTranslator 3 scenarioItems).1 "a" =
       some (outcomeOf scenarioTranslator "Hello") ∧
     jsMapGet (translateSmartBatch scenarioTranslator 3 scenarioItems).1 "c" =
       jsMapGet (translateSmartBatch scenarioTranslator 3 scenarioItems).1 "a") ∧
    (translateSmartBatch scenarioTranslator 3 scenarioItems).2 = ["Hello", "World"] ∧
    jsMapGet (translateSmartBatch scenarioTranslator 3 scenarioItems).1 "a" =
      some (.ok "Bonjour") ∧
    jsMapGet (translateSmartBatch scenarioTranslator 3 scenarioItems).1 "b" =
      some (.ok "Monde") ∧
    jsMapGet (translateSmartBatch scenarioTranslator 3 scenarioItems).1 "c" =
      some (.ok "Bonjour") :=
  ⟨by decide,
    translateSmartBatch_dedup scenarioTranslator 3 scenarioItems (by decide)
      { key := "a", text := "Hello" } { key := "c", text := "Hello" }
      (by decide) (by decide) (by decide),
    by decide, by decide, by decide, by decide⟩

/-! ### Batch translation orchestrator (`batchTranslate` in
`translationService.ts`) -/

/-- `BatchTranslationResult` as accumulated by the conversion loop. -/
structure BatchResult where
  success : Bool
  translations : List (String × String × String)
  failed : List (String × String)
  totalProcessed : ℕ
  totalFailed : ℕ
deriving DecidableEq, Repr

/-- One iteration of the conversion loop: a key succeeds only when its value
is present, nonempty (JS truthiness) and differs from the original text
(`translated && translated !== entry.text`). -/
def convertEntry (results : List (String × String)) (acc : BatchResult)
    (e : BatchItem) : BatchResult :=
  match jsMapGet results e.key with
  | some translated =>
    if translated ≠ "" ∧ translated ≠ e.text then
      { acc with
        translations := acc.translations ++ [(e.key, e.text, translated)]
        totalProcessed := acc.totalProcessed + 1 }
    else
      { acc with
        failed := acc.failed ++ [(e.key, "Translation failed or returned original text")]
        totalFailed := acc.totalFailed + 1 }
  | none =>
    { acc with
      failed := acc.failed ++ [(e.key, "Translation failed or returned original text")]
      totalFailed := acc.totalFailed + 1 }

/-- `GoogleTranslateService.batchTranslate`: run the deduplicating batch
translation, convert per input entry, and deem the call successful when
`totalFailed < entries.length / 2`. -/
def batchTranslate (translator : String → Except String String) (mc : ℕ)
    (entries : List BatchItem) : BatchResult :=
  let translationResults := (Legacy.translateSmartBatch translator mc entries).1
  let r := entries.foldl (convertEntry translationResults)
    { success := true, translations := [], failed := [], totalProcessed := 0,
      totalFailed := 0 }
  { r with success := decide ((r.totalFailed : ℚ) < (entries.length : ℚ) / 2) }

/-- The conversion loop's failure test for one entry. -/
def entryFailed (results : List (String × String)) (e : BatchItem) : Bool :=
  match jsMapGet results e.key with
  | some translated => decide (translated = "" ∨ translated = e.text)
  | none => true

/-- The number of entries whose translator call itself failed — the claim's
notion of a failed key. -/
def translatorFailedCount (translator : String → Except String String)
    (entries : List BatchItem) : ℕ :=
  (entries.filter (fun e => !(translator e.text).isOk)).length

theorem convert_totalFailed (results : List (String × String))
    (entries : List BatchItem) :
    ∀ acc : BatchResult, (entries.foldl (convertEntry results) acc).totalFailed =
      acc.totalFailed + entries.countP (entryFailed results) := by
  induction entries with
  | nil => intro acc; simp
  | cons e rest ih =>
    intro acc
    rw [List.foldl_cons, ih, List.countP_cons]
    rcases hget : jsMapGet results e.key with - | t
    · simp only [convertEntry, hget, entryFailed]
      simp
      omega
    · by_cases hc : t ≠ "" ∧ t ≠ e.text
      · have hf : entryFailed results e = false := by
          simp [entryFailed, hget]
          exact hc
        simp only [convertEntry, hget, if_pos hc, hf]
        simp
      · have hf : entryFailed results e = true := by
          simp [entryFailed, hget]
          tauto
        simp only [convertEntry, hget, if_neg hc, hf]
        simp
        omega

theorem batchTranslate_success_iff (translator : String → Except String String)
    (mc : ℕ) (entries : List BatchItem) :
    (batchTranslate translator mc entries).success = true ↔
      ((entries.countP
          (entryFailed (Legacy.translateSmartBatch translator mc entries).1) : ℚ)
        < (entries.length : ℚ) / 2) := by
  show (decide _) = true ↔ _
  rw [decide_eq_true_eq, convert_totalFailed]
  simp

/-- C3 (amended): the overall success flag is true iff the number of keys the
conversion loop counts as failed — those whose result is missing, empty, or
equal to the entry's original text — is strictly less than half the number of
entries; in particular an entry whose (successful) result equals its original
text is counted as failed. -/
theorem batchTranslate_success_amended (translator : String → Except String String)
    (mc : ℕ) (entries : List BatchItem) :
    ((batchTranslate translator mc entries).success = true ↔
      ((entries.countP
          (entryFailed (Legacy.translateSmartBatch translator mc entries).1) : ℚ)
        < (entries.length : ℚ) / 2)) ∧
    (∀ results : List (String × String), ∀ e : BatchItem,
      jsMapGet results e.key = some e.text → entryFailed results e = true) := by
  refine ⟨batchTranslate_success_iff translator mc entries, ?_⟩
  intro results e hget
  simp [entryFailed, hget]

/-- C3 counterexample: one entry whose translator call succeeds but returns
the original text. No translator call failed — by the claim the success flag
should be true (0 failed keys < 1/2) — but the code counts the identity
translation as failed and reports failure. -/
theorem batchTranslate_claim_counterexample :
    translatorFailedCount (fun _ => Except.ok "Hello")
      [{ key := "a", text := "Hello" }] = 0 ∧
    (batchTranslate (fun _ => Except.ok "Hello") 3
      [{ key := "a", text := "Hello" }]).success = false ∧
    ¬ ((batchTranslate (fun _ => Except.ok "Hello") 3
          [{ key := "a", text := "Hello" }]).success = true ↔
        ((translatorFailedCount (fun _ => Except.ok "Hello")
            [{ key := "a", text := "Hello" }] : ℚ)
          < (([{ key := "a", text := "Hello" }] : List BatchItem).length : ℚ) / 2)) := by
  have hcount : ([({ key := "a", text := "Hello" } : BatchItem)].countP
      (entryFailed (Legacy.translateSmartBatch (fun _ => Except.ok "Hello") 3
        [{ key := "a", text := "Hello" }]).1)) = 1 := by decide
  have hiff := batchTranslate_success_iff (fun _ => Except.ok "Hello") 3
    [{ key := "a", text := "Hello" }]
  rw [hcount] at hiff
  have hc0 : translatorFailedCount (fun _ => Except.ok "Hello")
      [{ key := "a", text := "Hello" }] = 0 := by decide
  have hsucc : (batchTranslate (fun _ => Except.ok "Hello") 3
      [{ key := "a", text := "Hello" }]).success = false := by
    cases hb : (batchTranslate (fun _ => Except.ok "Hello") 3
        [{ key := "a", text := "Hello" }]).success with
    | false => rfl
    | true =>
      exfalso
      have h1 := hiff.mp hb
      norm_num [List.length_singleton] at h1
  refine ⟨hc0, hsucc, ?_⟩
  intro hcontra
  have h0 : ((translatorFailedCount (fun _ => Except.ok "Hello")
      [{ key := "a", text := "Hello" }] : ℕ) : ℚ)
      < (([{ key := "a", text := "Hello" }] : List BatchItem).length : ℚ) / 2 := by
    rw [hc0]
    norm_num [List.length_singleton]
  have h2 := hcontra.mpr h0
  rw [hsucc] at h2
  cases h2

end LangPack
